import Mathlib

/-!
Verification of the flomo → Obsidian sync plugin (giraffe-tree/flomo2obsidian-plugin).

This file shallowly embeds the incremental synchronization engine of the
plugin — cursor handling, record classification, statistics accounting,
pagination, reconciliation against the local file tree, attachment handling,
and the request-signature algorithm — and proves or refutes the properties
stated about it.

Sources embedded:
- `src/syncEngine.ts` — `SyncEngine.sync`, `processMemo`, `findFileBySlug`,
  `downloadAttachment`.
- `src/formatter.ts` — `parseTimestamp`, `isImage`, `isAudio`,
  `generateFilename`, `memoToMarkdown`, `formatAttachment`.
- `src/flomoClient.ts` — `iterMemos`, `generateSign`, `md5`.
- `main.ts` — `performSync` (cursor persistence behaviour).

Conventions: JS numbers that hold Unix timestamps are embedded as `Int`
(arithmetic on them never overflows IEEE-754 exact-integer range in the
program); 32-bit words in the MD5 core are `Nat` reduced `% 2^32` at every
step that can overflow.  External platform facilities (the HTML→Markdown
converter, `Date` string parsing, WHATWG `URL` parsing, network and vault
I/O) are parameters of the embedding, as the specification scopes them out.
-/

namespace Flomo2Obsidian

/-- Modelled from the spec: a file attachment of a record, `{name, url}`
(`FlomoFile` in `types.ts`, whose declaration file is not in the sources). -/
structure FlomoFile where
  name : String
  url : String
  deriving DecidableEq, Repr

/-- Modelled from the spec: a remote record (`FlomoMemo` in `types.ts`, whose
declaration file is not in the sources; fields reconstructed from the spec's
data model and every use site in `syncEngine.ts` / `formatter.ts`).
`updated_at` is embedded as an integer timestamp: the string-date form is
parsed by the external `Date` platform API, which is outside the embedding,
so records enter the model already carrying the numeric form that
`parseTimestamp`'s numeric branch handles. -/
structure FlomoMemo where
  slug : String
  content : String
  tags : List String
  created_at : String
  updated_at : Int
  source : String
  files : List FlomoFile
  deriving DecidableEq, Repr

/-- Modelled from the spec: the persisted resume position
(`SyncCursor` in `types.ts`): watermark in integer seconds plus the id of the
last reconciled record. -/
structure SyncCursor where
  latest_updated_at : Int
  latest_slug : String
  deriving DecidableEq, Repr

/-- Models `parseTimestamp` (`formatter.ts:267-282`), numeric branch: a number above
`9999999999` is taken to be milliseconds and floored to seconds, otherwise it
is already seconds.  (The string branch delegates to the platform `Date`
parser and is outside the embedding; see `FlomoMemo.updated_at`.) -/
def parseTimestamp (time : Int) : Int :=
  if time > 9999999999 then time / 1000 else time

/-- The two classification windows of a fetched record
(the A–B buffer segment vs the B–C new segment of `SyncEngine.sync`). -/
inductive Window where
  | repeatWindow
  | newWindow
  deriving DecidableEq, Repr

/-- Record classification, transcribing
`isInBufferZone = !fullSync && memoUpdatedAt <= originalCursorTime`
(`syncEngine.ts:173`, and identically at line 205 in the failure path):
the already-parsed record timestamp is compared against the *pre-rewind*
watermark. -/
def classify (fullSync : Bool) (memoUpdatedAt originalCursorTime : Int) :
    Window :=
  if !fullSync && decide (memoUpdatedAt ≤ originalCursorTime) then
    .repeatWindow
  else
    .newWindow

/-- Cursor determination at the start of `SyncEngine.sync`
(`syncEngine.ts:125-139`): full sync resets to `(0, "")`; otherwise the
stored cursor is copied, its watermark is remembered as the original cursor
time (B point), and the fetch watermark is rewound by one day — but only
when it exceeds `86400`.  Returns the fetch cursor and the original
(pre-rewind) watermark. -/
def syncStartCursor (fullSync : Bool) (stored : SyncCursor) :
    SyncCursor × Int :=
  if fullSync then
    ({ latest_updated_at := 0, latest_slug := "" }, 0)
  else
    let originalCursorTime := stored.latest_updated_at
    let cursor :=
      if stored.latest_updated_at > 86400 then
        { stored with latest_updated_at := stored.latest_updated_at - 86400 }
      else
        stored
    (cursor, originalCursorTime)

/-- Models `FileOperationResult` (`types.ts`, reconstructed from the return values of
`SyncEngine.processMemo`): the reconciliation outcome of one record. -/
inductive FileOperationResult where
  | created
  | updated
  | skipped
  deriving DecidableEq, Repr

/-- Outcome of processing one memo inside the sync loop: either
`processMemo` returned a `FileOperationResult`, or it threw and the
`catch` branch of `SyncEngine.sync` (lines 200-219) runs. -/
inductive ProcessOutcome where
  | ok (r : FileOperationResult)
  | err
  deriving DecidableEq, Repr

/-- Per-bucket counters of `SyncStats.newContent` (B–C segment). -/
structure NewContentStats where
  created : Nat
  updated : Nat
  skipped : Nat
  failed : Nat
  total : Nat
  deriving DecidableEq, Repr

/-- Per-bucket counters of `SyncStats.bufferZone` (A–B segment; the code only
tracks created/updated there). -/
structure BufferZoneStats where
  created : Nat
  updated : Nat
  total : Nat
  deriving DecidableEq, Repr

/-- Modelled from the spec: the run statistics (`SyncStats` in `types.ts`,
counter fields reconstructed from their initialization in
`syncEngine.ts:98-119`; the `startTime`/`endTime` wall-clock fields are
outside the embedding). -/
structure SyncStats where
  created : Nat
  updated : Nat
  skipped : Nat
  failed : Nat
  total : Nat
  newContent : NewContentStats
  bufferZone : BufferZoneStats
  deriving DecidableEq, Repr

/-- The statistics value built at the top of `SyncEngine.sync`. -/
def initStats : SyncStats :=
  { created := 0, updated := 0, skipped := 0, failed := 0, total := 0
    newContent := { created := 0, updated := 0, skipped := 0, failed := 0, total := 0 }
    bufferZone := { created := 0, updated := 0, total := 0 } }

/-- Models `stats[result]++` of `syncEngine.ts:183`. -/
def bumpStats (r : FileOperationResult) (st : SyncStats) : SyncStats :=
  match r with
  | .created => { st with created := st.created + 1 }
  | .updated => { st with updated := st.updated + 1 }
  | .skipped => { st with skipped := st.skipped + 1 }

/-- Models `stats.newContent![result]++` of `syncEngine.ts:195`. -/
def bumpNewContent (r : FileOperationResult) (nc : NewContentStats) :
    NewContentStats :=
  match r with
  | .created => { nc with created := nc.created + 1 }
  | .updated => { nc with updated := nc.updated + 1 }
  | .skipped => { nc with skipped := nc.skipped + 1 }

/-- Models `stats.bufferZone![result]++` of `syncEngine.ts:189` (only reached for
`created`/`updated`). -/
def bumpBufferZone (r : FileOperationResult) (bz : BufferZoneStats) :
    BufferZoneStats :=
  match r with
  | .created => { bz with created := bz.created + 1 }
  | .updated => { bz with updated := bz.updated + 1 }
  | .skipped => bz

/-- The statistics fold for one record, transcribing the body of the
per-memo loop of `SyncEngine.sync` (`syncEngine.ts:167-219`):

* success path (lines 169-199): an A–B-segment `skipped` is ignored
  entirely; every other success bumps the overall counters, then either the
  buffer-zone bucket (A–B segment, `created`/`updated` only) or the
  new-content bucket (B–C segment);
* failure path (lines 200-218): an A–B-segment failure is ignored entirely;
  a B–C-segment failure bumps `failed`/`total` overall and in the
  new-content bucket. -/
def recordMemoStats (fullSync : Bool) (originalCursorTime memoUpdatedAt : Int)
    (outcome : ProcessOutcome) (st : SyncStats) : SyncStats :=
  let isInBufferZone :=
    !fullSync && decide (memoUpdatedAt ≤ originalCursorTime)
  match outcome with
  | .ok result =>
    let isSkippedInBufferZone := isInBufferZone && result = .skipped
    if isSkippedInBufferZone then
      st
    else
      let st := bumpStats result st
      let st := { st with total := st.total + 1 }
      if isInBufferZone then
        if result = .created ∨ result = .updated then
          { st with bufferZone :=
              { bumpBufferZone result st.bufferZone with
                total := st.bufferZone.total + 1 } }
        else
          st
      else
        { st with newContent :=
            { bumpNewContent result st.newContent with
              total := st.newContent.total + 1 } }
  | .err =>
    if isInBufferZone then
      st
    else
      { st with
        failed := st.failed + 1
        total := st.total + 1
        newContent :=
          { st.newContent with
            failed := st.newContent.failed + 1
            total := st.newContent.total + 1 } }

/-- One processed record of a run: its (already parsed) `updated_at`
timestamp together with its reconciliation outcome. -/
structure MemoEvent where
  updatedAt : Int
  outcome : ProcessOutcome
  deriving DecidableEq, Repr

/-- Folding the statistics of a whole run over its processed records. -/
def runStats (fullSync : Bool) (originalCursorTime : Int)
    (events : List MemoEvent) : SyncStats :=
  events.foldl
    (fun st e => recordMemoStats fullSync originalCursorTime e.updatedAt e.outcome st)
    initStats

/-- The bucket-totals-sum-to-overall-total invariant of `SyncStats`. -/
def bucketsPartitionTotal (st : SyncStats) : Prop :=
  st.newContent.total + st.bufferZone.total = st.total

lemma recordMemoStats_preserves_partition (fullSync : Bool)
    (w u : Int) (o : ProcessOutcome) (st : SyncStats)
    (h : bucketsPartitionTotal st) :
    bucketsPartitionTotal (recordMemoStats fullSync w u o st) := by
  unfold bucketsPartitionTotal at h ⊢
  cases o with
  | ok r =>
    cases r <;>
      simp only [recordMemoStats, bumpStats, bumpBufferZone, bumpNewContent] <;>
      split <;> simp_all <;> split <;> simp_all <;> omega
  | err =>
    simp only [recordMemoStats]
    split <;> simp_all
    omega

lemma foldl_recordMemoStats_partition (fullSync : Bool) (w : Int)
    (events : List MemoEvent) (st : SyncStats)
    (h : bucketsPartitionTotal st) :
    bucketsPartitionTotal
      (events.foldl
        (fun st e => recordMemoStats fullSync w e.updatedAt e.outcome st) st) := by
  induction events generalizing st with
  | nil => exact h
  | cons e rest ih =>
    exact ih _ (recordMemoStats_preserves_partition fullSync w e.updatedAt e.outcome st h)

/-- C1: the statistics fold obeys the accounting policy.  A REPEAT_WINDOW
record whose outcome is `skipped` or a failure leaves every counter
untouched; a REPEAT_WINDOW `created`/`updated` goes into the buffer
(re-confirmation) bucket and not into the new-content bucket; a NEW_WINDOW
record of any outcome is counted in the overall totals and the new-content
bucket; and the new-content total plus the buffer total equals the overall
total at every point of every run. -/
theorem c1_statistics_accounting_policy (w u : Int) (st : SyncStats) :
    (classify false u w = .repeatWindow →
      recordMemoStats false w u (.ok .skipped) st = st ∧
      recordMemoStats false w u .err st = st) ∧
    (∀ r : FileOperationResult, classify false u w = .repeatWindow →
      r = .created ∨ r = .updated →
      (recordMemoStats false w u (.ok r) st).bufferZone.total
          = st.bufferZone.total + 1 ∧
      (recordMemoStats false w u (.ok r) st).newContent = st.newContent ∧
      (recordMemoStats false w u (.ok r) st).total = st.total + 1) ∧
    (∀ (fullSync : Bool) (o : ProcessOutcome),
      classify fullSync u w = .newWindow →
      (recordMemoStats fullSync w u o st).total = st.total + 1 ∧
      (recordMemoStats fullSync w u o st).newContent.total
          = st.newContent.total + 1 ∧
      (recordMemoStats fullSync w u o st).bufferZone = st.bufferZone) ∧
    (∀ (fullSync : Bool) (w' : Int) (events : List MemoEvent),
      bucketsPartitionTotal (runStats fullSync w' events)) := by
  refine ⟨?_, ?_, ?_, ?_⟩
  · intro hcl
    have hle : u ≤ w := by
      by_contra hlt
      simp [classify, hlt] at hcl
    constructor <;> simp [recordMemoStats, hle]
  · intro r hcl hr
    have hle : u ≤ w := by
      by_contra hlt
      simp [classify, hlt] at hcl
    rcases hr with h | h <;> subst h <;>
      simp [recordMemoStats, bumpStats, bumpBufferZone, hle]
  · intro fullSync o hcl
    have hnb : (!fullSync && decide (u ≤ w)) = false := by
      by_contra hb
      simp only [Bool.not_eq_false] at hb
      simp [classify, hb] at hcl
    cases o with
    | ok r =>
      cases r <;>
        simp [recordMemoStats, hnb, bumpStats, bumpNewContent]
    | err =>
      simp [recordMemoStats, hnb]
  · intro fullSync w' events
    exact foldl_recordMemoStats_partition fullSync w' events initStats rfl

/-- Witness for `c1_statistics_accounting_policy` at a concrete input:
a REPEAT_WINDOW skip (timestamp 5 against watermark 10) leaves the fresh
statistics untouched. -/
theorem c1_statistics_accounting_policy_witness :
    recordMemoStats false 10 5 (.ok .skipped) initStats = initStats :=
  ((c1_statistics_accounting_policy 10 5 initStats).1 (by decide)).1

/-- C2: classification is a total function of the parsed `updated_at`
timestamp, the pre-rewind watermark and the full-sync flag: REPEAT_WINDOW
exactly when the sync is incremental and the parsed timestamp is at most the
original watermark, and every record of a full sync is NEW_WINDOW. -/
theorem c2_classification_rule (fullSync : Bool) (updatedAtRaw w : Int) :
    (classify fullSync (parseTimestamp updatedAtRaw) w = .repeatWindow ↔
      fullSync = false ∧ parseTimestamp updatedAtRaw ≤ w) ∧
    (∀ u : Int, classify true u w = .newWindow) := by
  constructor
  · cases fullSync <;> by_cases hle : parseTimestamp updatedAtRaw ≤ w <;>
      simp [classify, hle]
  · intro u
    simp [classify]

/-- Witness for `c2_classification_rule`: a millisecond timestamp
`20000000000` parses to `20000000` seconds, which equals the watermark, so an
incremental sync classifies it REPEAT_WINDOW. -/
theorem c2_classification_rule_witness :
    classify false (parseTimestamp 20000000000) 20000000 = .repeatWindow :=
  (c2_classification_rule false 20000000000 20000000).1.mpr ⟨rfl, by decide⟩

/-- Counterexample to C6 as stated: with a stored watermark of exactly
`86400` the fetch is issued from watermark `86400`, not from
`86400 - 86400 = 0` — the one-day rewind is skipped whenever the stored
watermark does not exceed one day. -/
theorem c6_counterexample :
    (syncStartCursor false ⟨86400, "x"⟩).1.latest_updated_at ≠ 86400 - 86400 ∧
    (syncStartCursor false ⟨86400, "x"⟩).1.latest_updated_at = 86400 := by
  constructor <;> decide

/-- C6 (amended): a full sync starts from watermark `0` and empty id; an
incremental sync fetches from the stored watermark minus one day *when the
stored watermark exceeds 86400*, and from the unchanged stored cursor
otherwise; the remembered original watermark is the stored (pre-rewind)
value. -/
theorem c6_rewind_policy (stored : SyncCursor) :
    ((syncStartCursor true stored).1 =
        { latest_updated_at := 0, latest_slug := "" } ∧
      (syncStartCursor true stored).2 = 0) ∧
    (stored.latest_updated_at > 86400 →
      (syncStartCursor false stored).1 =
        { latest_updated_at := stored.latest_updated_at - 86400,
          latest_slug := stored.latest_slug }) ∧
    (stored.latest_updated_at ≤ 86400 →
      (syncStartCursor false stored).1 = stored) ∧
    (syncStartCursor false stored).2 = stored.latest_updated_at := by
  refine ⟨⟨rfl, rfl⟩, ?_, ?_, rfl⟩
  · intro h
    simp [syncStartCursor, h]
  · intro h
    have : ¬ stored.latest_updated_at > 86400 := by omega
    simp [syncStartCursor, this]

/-- Witness for `c6_rewind_policy`: a stored watermark of `100000` is
rewound to `13600`. -/
theorem c6_rewind_policy_witness :
    (syncStartCursor false ⟨100000, "s"⟩).1 =
      { latest_updated_at := 13600, latest_slug := "s" } :=
  (c6_rewind_policy ⟨100000, "s"⟩).2.1 (by decide)

/-- The page-size constant `LIMIT = 200` of `flomoClient.ts`. -/
def LIMIT : Nat := 200

/-- The pages yielded by `FlomoClient.iterMemos`
(`flomoClient.ts:343-389`).  `remote n` is the response to the `n`-th
`fetchMemosPage` call of the run (the cursor passed to each fetch is derived
from the previous page's last record; since the loop-control logic depends
only on page lengths the response stream is indexed here by fetch ordinal).
Each loop iteration performs exactly one fetch; then: an empty response
breaks before yielding, a response shorter than `LIMIT` is yielded and breaks,
and a response of at least `LIMIT` records is yielded and the loop continues.
`fuel` bounds the number of loop iterations; the theorems quantify over
sufficiently large fuel. -/
def iterMemosPages (remote : Nat → List FlomoMemo) :
    Nat → Nat → List (List FlomoMemo)
  | 0, _ => []
  | fuel + 1, n =>
    let items := remote n
    if items.length = 0 then []
    else if items.length < LIMIT then [items]
    else items :: iterMemosPages remote fuel (n + 1)

/-- The number of `fetchMemosPage` calls performed by the loop of
`FlomoClient.iterMemos`, under the same indexing as `iterMemosPages`. -/
def iterMemosFetchCount (remote : Nat → List FlomoMemo) : Nat → Nat → Nat
  | 0, _ => 0
  | fuel + 1, n =>
    let items := remote n
    if items.length = 0 then 1
    else if items.length < LIMIT then 1
    else 1 + iterMemosFetchCount remote fuel (n + 1)

lemma iterMemos_first_short_page (remote : Nat → List FlomoMemo) :
    ∀ (k n fuel : Nat), (∀ m, m < k → (remote (n + m)).length = LIMIT) →
      (remote (n + k)).length < LIMIT → k < fuel →
      iterMemosFetchCount remote fuel n = k + 1 ∧
      iterMemosPages remote fuel n =
        (List.range k).map (fun i => remote (n + i)) ++
          (if (remote (n + k)).length = 0 then [] else [remote (n + k)]) := by
  intro k
  induction k with
  | zero =>
    intro n fuel _ hshort hfuel
    obtain ⟨f, rfl⟩ : ∃ f, fuel = f + 1 := ⟨fuel - 1, by omega⟩
    simp only [Nat.add_zero] at hshort
    constructor
    · simp only [iterMemosFetchCount]
      split <;> simp [hshort]
    · simp only [iterMemosPages, List.range_zero, List.map_nil,
        List.nil_append, Nat.add_zero]
      split <;> simp_all [hshort]
  | succ k ih =>
    intro n fuel hfull hshort hfuel
    obtain ⟨f, rfl⟩ : ∃ f, fuel = f + 1 := ⟨fuel - 1, by omega⟩
    have h0 : (remote n).length = LIMIT := by
      have := hfull 0 (by omega)
      simpa using this
    have hrec := ih (n + 1) f
      (fun m hm => by
        have := hfull (m + 1) (by omega)
        simpa [Nat.add_assoc, Nat.add_comm 1 m] using this)
      (by
        have : n + 1 + k = n + (k + 1) := by omega
        simpa [this] using hshort)
      (by omega)
    have hne : ¬ (remote n).length = 0 := by simp [h0, LIMIT]
    have hns : ¬ (remote n).length < LIMIT := by omega
    constructor
    · simp only [iterMemosFetchCount, if_neg hne, if_neg hns]
      omega
    · simp only [iterMemosPages, if_neg hne, if_neg hns, hrec.2]
      have hrange : (List.range (k + 1)).map (fun i => remote (n + i)) =
          remote n :: (List.range k).map (fun i => remote (n + 1 + i)) := by
        simp [List.range_succ_eq_map, List.map_map, Function.comp]
        intro a _
        congr 1
        omega
      have harg : n + 1 + k = n + (k + 1) := by omega
      simp [hrange, harg]

/-- C4: iteration ends exactly at the first page strictly shorter than the
maximum page size 200.  If the first `k` responses have exactly 200 records
and the `k`-th is short (possibly empty), then — for any sufficient fuel —
exactly `k + 1` fetches are performed (so each exactly-200-record page
triggered a further fetch) and the yielded pages are the `k` full pages
followed by the short page unless it is empty; moreover a 200-record response
always adds one more fetch to the count. -/
theorem c4_pagination_termination (remote : Nat → List FlomoMemo) (k : Nat)
    (hfull : ∀ m, m < k → (remote m).length = LIMIT)
    (hshort : (remote k).length < LIMIT) :
    (∀ fuel, k < fuel →
      iterMemosFetchCount remote fuel 0 = k + 1 ∧
      iterMemosPages remote fuel 0 =
        (List.range k).map remote ++
          (if (remote k).length = 0 then [] else [remote k])) ∧
    (∀ (n fuel : Nat), (remote n).length = LIMIT →
      iterMemosFetchCount remote (fuel + 1) n =
        1 + iterMemosFetchCount remote fuel (n + 1)) := by
  constructor
  · intro fuel hfuel
    have := iterMemos_first_short_page remote k 0 fuel
      (fun m hm => by simpa using hfull m hm)
      (by simpa using hshort) hfuel
    simpa using this
  · intro n fuel hn
    have hne : ¬ (remote n).length = 0 := by simp [hn, LIMIT]
    have hns : ¬ (remote n).length < LIMIT := by omega
    simp only [iterMemosFetchCount, if_neg hne, if_neg hns]

/-- A concrete record used by witnesses. -/
def sampleMemo : FlomoMemo :=
  { slug := "slug1", content := "", tags := [], created_at := ""
    updated_at := 0, source := "", files := [] }

/-- A concrete remote for the C4 witness: one exactly-full page followed by
an empty page. -/
def c4WitnessRemote : Nat → List FlomoMemo :=
  fun n => if n = 0 then List.replicate LIMIT sampleMemo else []

/-- Witness for `c4_pagination_termination`: against a remote answering one
exactly-200-record page and then an empty page, the loop fetches twice and
yields only the full page. -/
theorem c4_pagination_termination_witness :
    iterMemosFetchCount c4WitnessRemote 5 0 = 2 ∧
    iterMemosPages c4WitnessRemote 5 0 = [List.replicate LIMIT sampleMemo] := by
  have h := (c4_pagination_termination c4WitnessRemote 1
    (fun m hm => by
      have : m = 0 := by omega
      simp [this, c4WitnessRemote])
    (by simp [c4WitnessRemote, LIMIT])).1 5 (by omega)
  simpa [c4WitnessRemote] using h

/-- Cursor advance after one yielded page (`syncEngine.ts:240-248`):
`this.settings.cursor` is replaced (in memory) by the last record's parsed
timestamp and slug; the `if (lastMemo)` guard leaves it unchanged for an
empty page.  The code comments there explicitly do *not* call
`saveSettings`; the durable write is left to the caller. -/
def updateCursorAfterPage (c : SyncCursor) (items : List FlomoMemo) :
    SyncCursor :=
  match items.getLast? with
  | some lastMemo =>
    { latest_updated_at := parseTimestamp lastMemo.updated_at
      latest_slug := lastMemo.slug }
  | none => c

/-- The in-memory `settings.cursor` after a run that yielded `pages`,
starting from the stored cursor. -/
def finalCursor (stored : SyncCursor) (pages : List (List FlomoMemo)) :
    SyncCursor :=
  pages.foldl updateCursorAfterPage stored

/-- One iteration of `SyncEngine.sync`'s page loop as observed by the cursor:
either a page is fetched and fully processed, or the fetch throws
(`FlomoApiError`), aborting the run. -/
inductive PageEvent where
  | page (items : List FlomoMemo)
  | fetchError
  deriving DecidableEq, Repr

/-- The engine's page loop threaded over the in-memory cursor: each
successfully processed page updates it; a fetch error stops the loop with the
abort flag set. -/
def runSyncMem : SyncCursor → List PageEvent → SyncCursor × Bool
  | c, [] => (c, false)
  | c, .page items :: rest => runSyncMem (updateCursorAfterPage c items) rest
  | c, .fetchError :: _ => (c, true)

/-- The plugin's two copies of the resume position: the live
`this.settings.cursor` object (`mem`) and what `saveData` last wrote to
`data.json` (`disk`). -/
structure PluginState where
  mem : SyncCursor
  disk : SyncCursor
  deriving DecidableEq, Repr

/-- Models `FlomoSyncPlugin.performSync` (`main.ts:128-212`) as observed by the two
cursor copies: `engine.sync` advances the in-memory cursor page by page; on
normal completion `performSync` calls `saveSettings`, copying the in-memory
settings to disk; when `sync` throws, the `catch` branch calls
`handleSyncError`, which performs no save, so the on-disk cursor keeps its
pre-run value. -/
def performSyncCursorModel (st : PluginState) (events : List PageEvent) :
    PluginState :=
  let r := runSyncMem st.mem events
  if r.2 then { mem := r.1, disk := st.disk }
  else { mem := r.1, disk := r.1 }

/-- The pages fully processed before the first fetch error (all of them when
no fetch error occurs). -/
def pagesBeforeError : List PageEvent → List (List FlomoMemo)
  | [] => []
  | .page items :: rest => items :: pagesBeforeError rest
  | .fetchError :: _ => []

/-- Whether the run aborts with a page-level fetch error. -/
def hasFetchError : List PageEvent → Bool
  | [] => false
  | .page _ :: rest => hasFetchError rest
  | .fetchError :: _ => true

lemma runSyncMem_eq_finalCursor :
    ∀ (events : List PageEvent) (c : SyncCursor),
      runSyncMem c events =
        (finalCursor c (pagesBeforeError events), hasFetchError events) := by
  intro events
  induction events with
  | nil => intro c; rfl
  | cons e rest ih =>
    intro c
    cases e with
    | page items =>
      simp [runSyncMem, pagesBeforeError, hasFetchError, ih, finalCursor]
    | fetchError =>
      simp [runSyncMem, pagesBeforeError, hasFetchError, finalCursor]

/-- A record used in the C3 counterexample and witness. -/
def c3Memo : FlomoMemo :=
  { slug := "a", content := "", tags := [], created_at := ""
    updated_at := 100, source := "", files := [] }

/-- Counterexample to C3 as stated: a run that processes one page
successfully (record timestamp 100, id "a") and then aborts on a fetch error
leaves the *persisted* resume position at its pre-run value `(0, "")`; only
the in-memory copy reflects the processed page, because `performSync` calls
`saveSettings` solely on normal completion and `handleSyncError` never
saves. -/
theorem c3_counterexample :
    (performSyncCursorModel ⟨⟨0, ""⟩, ⟨0, ""⟩⟩
        [.page [c3Memo], .fetchError]).mem =
      { latest_updated_at := 100, latest_slug := "a" } ∧
    (performSyncCursorModel ⟨⟨0, ""⟩, ⟨0, ""⟩⟩
        [.page [c3Memo], .fetchError]).disk ≠
      { latest_updated_at := 100, latest_slug := "a" } ∧
    (performSyncCursorModel ⟨⟨0, ""⟩, ⟨0, ""⟩⟩
        [.page [c3Memo], .fetchError]).disk =
      { latest_updated_at := 0, latest_slug := "" } := by
  refine ⟨by decide, by decide, by decide⟩

/-- C3 (amended): after every successfully processed page the *in-memory*
resume position is updated, so the in-memory cursor after a run reflects
every page processed before a failure; the position is written to durable
storage only when the run completes normally, and an aborted run leaves the
durable position at its pre-run value. -/
theorem c3_cursor_persistence (st : PluginState) (events : List PageEvent) :
    (performSyncCursorModel st events).mem =
      finalCursor st.mem (pagesBeforeError events) ∧
    (hasFetchError events = false →
      (performSyncCursorModel st events).disk =
        finalCursor st.mem (pagesBeforeError events)) ∧
    (hasFetchError events = true →
      (performSyncCursorModel st events).disk = st.disk) := by
  have h := runSyncMem_eq_finalCursor events st.mem
  cases hf : hasFetchError events <;>
    simp [performSyncCursorModel, h, hf]

/-- Witness for `c3_cursor_persistence`: a run of one successful page and no
error persists the page's cursor to disk. -/
theorem c3_cursor_persistence_witness :
    (performSyncCursorModel ⟨⟨0, ""⟩, ⟨0, ""⟩⟩ [.page [c3Memo]]).disk =
      { latest_updated_at := 100, latest_slug := "a" } := by
  have h := (c3_cursor_persistence ⟨⟨0, ""⟩, ⟨0, ""⟩⟩ [.page [c3Memo]]).2.1
    (by decide)
  exact h.trans (by decide)

lemma finalCursor_getLast :
    ∀ (pages : List (List FlomoMemo)) (c : SyncCursor), pages ≠ [] →
      (∀ p ∈ pages, p ≠ []) →
      ∃ last, pages.flatten.getLast? = some last ∧
        finalCursor c pages =
          { latest_updated_at := parseTimestamp last.updated_at
            latest_slug := last.slug } := by
  intro pages
  induction pages with
  | nil => intro c h; exact absurd rfl h
  | cons p rest ih =>
    intro c _ hall
    have hp : p ≠ [] := hall p (by simp)
    cases rest with
    | nil =>
      refine ⟨p.getLast hp, ?_, ?_⟩
      · simp [List.getLast?_eq_getLast p hp]
      · simp [finalCursor, updateCursorAfterPage, List.getLast?_eq_getLast p hp]
    | cons q rest' =>
      obtain ⟨last, h1, h2⟩ := ih (updateCursorAfterPage c p) (by simp)
        (fun r hr => hall r (by simp [hr]))
      refine ⟨last, ?_, ?_⟩
      · have hne : ((q :: rest').flatten).getLast? = some last := h1
        have hflat : (p :: q :: rest').flatten = p ++ (q :: rest').flatten := by
          simp
        rw [hflat, List.getLast?_append_of_ne_nil]
        · exact hne
        · intro hnil
          have hq : q ≠ [] := hall q (by simp)
          simp [List.flatten_eq_nil_iff] at hnil
          exact hq hnil.1
      · simpa [finalCursor] using h2

lemma mem_of_getLast?_eq {α : Type} :
    ∀ (l : List α) (a : α), l.getLast? = some a → a ∈ l := by
  intro l
  induction l with
  | nil => intro a h; simp at h
  | cons x t ih =>
    intro a h
    cases t with
    | nil => simp_all
    | cons y t' =>
      rw [List.getLast?_cons_cons] at h
      exact List.mem_cons.2 (Or.inr (ih a h))

lemma pairwise_rel_getLast {α : Type} (R : α → α → Prop) :
    ∀ (l : List α) (last : α), l.Pairwise R → l.getLast? = some last →
      ∀ m ∈ l, m = last ∨ R m last := by
  intro l
  induction l with
  | nil => intro last _ h; simp at h
  | cons a t ih =>
    intro last hpw hlast m hm
    cases t with
    | nil =>
      simp at hlast hm
      subst hlast; subst hm
      exact Or.inl rfl
    | cons b t' =>
      have hlast' : (b :: t').getLast? = some last := by
        rw [List.getLast?_cons_cons] at hlast
        exact hlast
      have hmem : last ∈ b :: t' := mem_of_getLast?_eq _ _ hlast'
      rcases List.mem_cons.1 hm with h | h
      · subst h
        exact Or.inr ((List.pairwise_cons.1 hpw).1 last hmem)
      · exact ih last (List.pairwise_cons.1 hpw).2 hlast' m h

/-- A record used in the C5 counterexample and witness. -/
def c5Memo : FlomoMemo :=
  { slug := "a", content := "", tags := [], created_at := ""
    updated_at := 150000, source := "", files := [] }

/-- Counterexample to C5 as stated: a non-full run that completes normally
after yielding a single page whose only record has timestamp `150000` —
legitimately inside the rewound fetch window `[113600, 200000]` of a stored
watermark of `200000` — overwrites the cursor with `(150000, "a")`,
*decreasing* the watermark. -/
theorem c5_counterexample :
    finalCursor ⟨200000, "b"⟩ [[c5Memo]] =
      { latest_updated_at := 150000, latest_slug := "a" } ∧
    ¬ ((200000 : Int) ≤ (finalCursor ⟨200000, "b"⟩ [[c5Memo]]).latest_updated_at) := by
  refine ⟨by decide, by decide⟩

/-- C5 (amended): for a run that completes normally and yields at least one
(necessarily non-empty) page, the final resume position equals the parsed
`(updatedAt, id)` of the last record of the last yielded page; the watermark
is moreover ≥ its pre-run value provided the records were delivered in
ascending parsed-`updatedAt` order and at least one fetched record's parsed
timestamp is ≥ the pre-run watermark. -/
theorem c5_resume_position (stored : SyncCursor)
    (pages : List (List FlomoMemo)) (hne : pages ≠ [])
    (hall : ∀ p ∈ pages, p ≠ []) :
    ∃ last, pages.flatten.getLast? = some last ∧
      finalCursor stored pages =
        { latest_updated_at := parseTimestamp last.updated_at
          latest_slug := last.slug } ∧
      (pages.flatten.Pairwise
          (fun a b => parseTimestamp a.updated_at ≤ parseTimestamp b.updated_at) →
        (∃ m ∈ pages.flatten,
          stored.latest_updated_at ≤ parseTimestamp m.updated_at) →
        stored.latest_updated_at ≤
          (finalCursor stored pages).latest_updated_at) := by
  obtain ⟨last, h1, h2⟩ := finalCursor_getLast pages stored hne hall
  refine ⟨last, h1, h2, ?_⟩
  intro hasc ⟨m, hm, hts⟩
  have := pairwise_rel_getLast _ pages.flatten last hasc h1 m hm
  rw [h2]
  rcases this with h | h
  · subst h; exact hts
  · exact hts.trans h

/-- Witness for `c5_resume_position`: one page with one record of timestamp
`150000`, stored watermark `100`: the final cursor is `(150000, "a")` and the
watermark did not decrease. -/
theorem c5_resume_position_witness :
    finalCursor ⟨100, "z"⟩ [[c5Memo]] =
      { latest_updated_at := 150000, latest_slug := "a" } ∧
    (100 : Int) ≤ (finalCursor ⟨100, "z"⟩ [[c5Memo]]).latest_updated_at := by
  obtain ⟨last, h1, h2, h3⟩ := c5_resume_position ⟨100, "z"⟩ [[c5Memo]]
    (by simp) (by simp)
  have hl : c5Memo = last := by simpa using h1
  subst hl
  refine ⟨by simpa [parseTimestamp, c5Memo] using h2, ?_⟩
  exact h3 (by simp) ⟨c5Memo, by simp, by decide⟩

/-- JS `a || b` on strings: the empty string is falsy. -/
def jsOrStr (a b : String) : String := if a = "" then b else a

/-- Models `IMAGE_EXTS` of `formatter.ts`. -/
def IMAGE_EXTS : List String := [".png", ".jpg", ".jpeg", ".gif", ".webp", ".svg"]

/-- Models `AUDIO_EXTS` of `formatter.ts`. -/
def AUDIO_EXTS : List String := [".m4a", ".mp3", ".wav", ".ogg"]

/-- JS `\s` test, used to delimit `#tag` tokens and to trim (the
`Char.isWhitespace` class covers the whitespace characters occurring in memo
content). -/
def isJsSpace (c : Char) : Bool := c.isWhitespace

/-- Models `String.prototype.split` on a single-character separator: splitting an
empty string yields `[""]`, a trailing separator yields a trailing empty
component, exactly as in JS. -/
def splitOnChar (sep : Char) : List Char → List (List Char)
  | [] => [[]]
  | c :: rest =>
    let r := splitOnChar sep rest
    if c = sep then [] :: r
    else
      match r with
      | [] => [[c]]
      | h :: t => (c :: h) :: t

/-- Models `String.prototype.trim` (whitespace stripped from both ends). -/
def jsTrim (l : List Char) : List Char :=
  ((l.dropWhile isJsSpace).reverse.dropWhile isJsSpace).reverse

/-- ASCII lowering, `String.prototype.toLowerCase` on the extension strings
handled here. -/
def lowerChars (l : List Char) : List Char := l.map Char.toLower

/-- The suffix of a character list starting at its *last* `'.'`
(including the dot), or `none` when there is no dot. -/
def suffixFromLastDot : List Char → Option (List Char)
  | [] => none
  | c :: rest =>
    match suffixFromLastDot rest with
    | some t => some t
    | none => if c = '.' then some (c :: rest) else none

/-- Models `s.slice(s.lastIndexOf('.'))` as used by `isImage`/`isAudio`/
`getExtensionFromUrl`: the substring from the last dot onward; when there is
no dot, `lastIndexOf` is `-1` and `slice(-1)` yields the final character
(or the empty string on an empty input). -/
def jsExtSlice (s : String) : String :=
  match suffixFromLastDot s.data with
  | some l => String.mk l
  | none =>
    match s.data.getLast? with
    | some c => String.mk [c]
    | none => ""

/-- Models `isImage` (`formatter.ts:290-295`): strip the query string, take the
extension from the last dot, lowercase it, and test membership in
`IMAGE_EXTS`. -/
def isImage (filename : String) : Bool :=
  let cleanName := String.mk ((splitOnChar '?' filename.data).headD filename.data)
  let ext := String.mk (lowerChars (jsExtSlice cleanName).data)
  IMAGE_EXTS.contains ext

/-- Models `isAudio` (`formatter.ts:303-308`), same shape as `isImage` over
`AUDIO_EXTS`. -/
def isAudio (filename : String) : Bool :=
  let cleanName := String.mk ((splitOnChar '?' filename.data).headD filename.data)
  let ext := String.mk (lowerChars (jsExtSlice cleanName).data)
  AUDIO_EXTS.contains ext

/-- Models `getExtensionFromUrl` (`formatter.ts:107-115`).  `urlPathname` abstracts
the platform's WHATWG `new URL(url).pathname` — `none` models the
constructor throwing, caught by the `try/catch` and turned into `""`. -/
def getExtensionFromUrl (urlPathname : String → Option String)
    (url : String) : String :=
  match urlPathname url with
  | none => ""
  | some pathname =>
    let ext := String.mk (lowerChars (jsExtSlice pathname).data)
    if ext.data.contains '.' then ext else ""

/-- Models `formatAttachment` (`formatter.ts:124-147`): images are embedded,
audio gets an audio-tagged link, everything else a plain link; without any
usable URL the line is a plain `- name` bullet.  The type of the link is
decided from `file.url` (falling back to `file.name`), while the link target
prefers the local path. -/
def formatAttachment (urlPathname : String → Option String) (file : FlomoFile)
    (localPath : Option String) : String :=
  let name := jsOrStr file.name "file"
  let url := jsOrStr (localPath.getD "") (jsOrStr file.url "")
  if url = "" then
    "- " ++ name
  else
    let ext := jsOrStr (getExtensionFromUrl urlPathname file.url)
      (getExtensionFromUrl urlPathname file.name)
    if IMAGE_EXTS.contains ext then "![" ++ name ++ "](" ++ url ++ ")"
    else if AUDIO_EXTS.contains ext then "[音频: " ++ name ++ "](" ++ url ++ ")"
    else "[" ++ name ++ "](" ++ url ++ ")"

/-- Models `JSON.stringify` escaping for the characters that can occur in tag
strings here (backslash and double quote; the control-character escapes of
full JSON are irrelevant to the properties below). -/
def jsonEscapeChars : List Char → List Char
  | [] => []
  | c :: rest =>
    if c = '"' then '\\' :: '"' :: jsonEscapeChars rest
    else if c = '\\' then '\\' :: '\\' :: jsonEscapeChars rest
    else c :: jsonEscapeChars rest

/-- Models `JSON.stringify` of a string array, as used for the `tags:` frontmatter
line of `memoToMarkdown`. -/
def jsonStringifyStringArray (tags : List String) : String :=
  "[" ++ String.intercalate ","
    (tags.map (fun t => "\"" ++ String.mk (jsonEscapeChars t.data) ++ "\"")) ++ "]"

/-- Models `Map.get` on the attachment-path mapping (keyed by attachment URL). -/
def lookupAssoc (m : List (String × String)) (k : String) : Option String :=
  (m.find? (fun p => p.1 == k)).map (·.2)

/-- The `updated_at` frontmatter value: the template interpolation
`"${memo.updated_at || ''}"` on the numeric embedding of the timestamp. -/
def updatedAtField (t : Int) : String := if t = 0 then "" else toString t

/-- Models `memoToMarkdown` (`formatter.ts:156-198`): frontmatter (slug, creation
and update times, JSON-rendered tags, source), then the converted body, then
an attachment section when the record has files.  `htmlToMd` abstracts the
external `htmlToMarkdown` converter (out of scope per the spec). -/
def memoToMarkdown (htmlToMd : String → String)
    (urlPathname : String → Option String) (memo : FlomoMemo)
    (attachmentPaths : List (String × String)) : String :=
  let tags := memo.tags
  let tagsStr := if tags.length > 0 then jsonStringifyStringArray tags else "[]"
  let body := htmlToMd memo.content
  let files := memo.files
  let attachmentsSection :=
    if files.length > 0 then
      "\n\n**附件:**\n" ++ String.intercalate "\n"
        (files.map (fun f =>
          formatAttachment urlPathname f (lookupAssoc attachmentPaths f.url)))
    else ""
  "---\nslug: " ++ memo.slug
    ++ "\ncreated_at: \"" ++ jsOrStr memo.created_at ""
    ++ "\"\nupdated_at: \"" ++ updatedAtField memo.updated_at
    ++ "\"\ntags: " ++ tagsStr
    ++ "\nsource: \"" ++ jsOrStr memo.source ""
    ++ "\"\n---\n\n" ++ body ++ attachmentsSection ++ "\n"

/-- Scanner state machine for `replace(/#\S+/g, '')`: when `inToken` is set
the scanner is inside a matched `#\S+` run and drops characters until the
next whitespace. -/
def removeHashAux : Bool → List Char → List Char
  | _, [] => []
  | true, c :: rest =>
    if isJsSpace c then c :: removeHashAux false rest
    else removeHashAux true rest
  | false, c :: rest =>
    if c = '#' then
      match rest with
      | [] => ['#']
      | d :: _ =>
        if isJsSpace d then '#' :: removeHashAux false rest
        else removeHashAux true rest
    else c :: removeHashAux false rest

/-- Models `contentMd.replace(/#\S+/g, '')` of `generateFilename`: removes every
`#` together with its maximal following run of non-whitespace characters;
a `#` not followed by a non-whitespace character stays. -/
def removeHashTokens (l : List Char) : List Char := removeHashAux false l

/-- A CJK ideograph (`一`–`龥`) or JS word character (`\w`). -/
def isCJKorWordChar (c : Char) : Bool :=
  (0x4e00 ≤ c.toNat && c.toNat ≤ 0x9fa5)
    || ('a' ≤ c && c ≤ 'z') || ('A' ≤ c && c ≤ 'Z')
    || ('0' ≤ c && c ≤ '9') || c = '_'

/-- The characters stripped by the `safeLeaf` sanitizer of
`generateFilename` (`[\\/:*?"<>|]`). -/
def isFsForbidden (c : Char) : Bool :=
  c = '\\' || c = '/' || c = ':' || c = '*' || c = '?' || c = '"'
    || c = '<' || c = '>' || c = '|'

/-- The date component of the filename: `created_at.slice(0, 10)` when the
string has at least 10 characters. -/
def filenameDatePart (memo : FlomoMemo) : List String :=
  if memo.created_at.data.length ≥ 10 then [String.mk (memo.created_at.data.take 10)]
  else []

/-- The tag component of the filename: the sanitized leaf segment of the
first tag (`firstTag.split('/').pop() || firstTag`, forbidden filesystem
characters removed, trimmed), omitted when empty. -/
def filenameTagPart (memo : FlomoMemo) : List String :=
  match memo.tags with
  | [] => []
  | firstTag :: _ =>
    let leaf := jsOrStr (String.mk ((splitOnChar '/' firstTag.data).getLastD []))
      firstTag
    let safeLeaf := String.mk (jsTrim (leaf.data.filter (fun c => !isFsForbidden c)))
    if safeLeaf = "" then [] else [safeLeaf]

/-- The content-preview component of the filename: first 6 CJK/word
characters of the converted body with `#tags` removed, omitted when empty. -/
def filenamePreviewPart (htmlToMd : String → String) (memo : FlomoMemo) :
    List String :=
  let contentMd := htmlToMd memo.content
  let contentClean := removeHashTokens contentMd.data
  let preview := String.mk ((contentClean.filter isCJKorWordChar).take 6)
  if preview = "" then [] else [preview]

/-- The non-empty filename components of `generateFilename`
(`formatter.ts:208-245`), in order: date, tag leaf, content preview, slug. -/
def filenameParts (htmlToMd : String → String) (memo : FlomoMemo) :
    List String :=
  filenameDatePart memo ++ filenameTagPart memo
    ++ filenamePreviewPart htmlToMd memo ++ [memo.slug]

/-- Models `Array.prototype.join('_')`. -/
def joinParts : List String → String
  | [] => ""
  | [p] => p
  | p :: q :: rest => p ++ "_" ++ joinParts (q :: rest)

/-- Models `generateFilename` (`formatter.ts:208-245`): the `_`-joined non-empty
components plus the `.md` extension.  (The `Date.now()`-based fallback for a
record with an empty slug is impure and not modelled; every theorem about
filenames assumes a non-empty slug.) -/
def generateFilename (htmlToMd : String → String) (memo : FlomoMemo) : String :=
  joinParts (filenameParts htmlToMd memo) ++ ".md"

/-- A file of the target directory: Obsidian `TFile` name plus the content
`vault.adapter.read` would return for it. -/
structure FileEntry where
  name : String
  content : String
  deriving DecidableEq, Repr

/-- The test of `findFileBySlug`'s regular expression
`` new RegExp(`_${slug}\\.md$`) `` on a file name: for the alphanumeric slugs
the remote produces (no regex metacharacters) the pattern holds exactly when
the name ends with `_<slug>.md`. -/
def matchesSlugPat (slug name : String) : Bool :=
  ("_" ++ slug ++ ".md").data.isSuffixOf name.data

/-- Models `SyncEngine.findFileBySlug` (`syncEngine.ts:413-426`): the first file of
the directory whose name matches the slug pattern. -/
def findFileBySlug (slug : String) (dir : List FileEntry) : Option FileEntry :=
  dir.find? (fun f => matchesSlugPat slug f.name)

/-- Models `app.vault.delete`: removes the entry (entries) with the given name. -/
def vaultDelete (name : String) (dir : List FileEntry) : List FileEntry :=
  dir.filter (fun f => f.name != name)

/-- Models `app.vault.create`: rejects (throws) when a file with that path already
exists, otherwise adds the new file. -/
def vaultCreate (name content : String) (dir : List FileEntry) :
    Except Unit (List FileEntry) :=
  if dir.any (fun f => f.name == name) then .error ()
  else .ok (dir ++ [{ name := name, content := content }])

/-- Models `app.vault.modify`: replaces the content of the named file in place. -/
def vaultModify (name content : String) (dir : List FileEntry) :
    List FileEntry :=
  dir.map (fun f => if f.name == name then { f with content := content } else f)

/-- Models `SyncEngine.processMemo` steps 2-3 (`syncEngine.ts:319-404`): render the
record, look for an existing file embedding its slug, then skip (identical
content), modify in place (same filename), delete-and-create (changed
filename) or create (no existing file).  Step 1 (attachment downloading) is
the separately modelled `buildAttachmentPaths`; its result enters here as
`attachmentPaths`.  A thrown vault error surfaces as `.error` and is counted
as a `failed` record by the caller. -/
def processMemo (htmlToMd : String → String)
    (urlPathname : String → Option String) (memo : FlomoMemo)
    (attachmentPaths : List (String × String)) (dir : List FileEntry) :
    Except Unit (FileOperationResult × List FileEntry) :=
  let newFilename := generateFilename htmlToMd memo
  let content := memoToMarkdown htmlToMd urlPathname memo attachmentPaths
  match findFileBySlug memo.slug dir with
  | some existingFile =>
    if existingFile.content = content then
      .ok (.skipped, dir)
    else if existingFile.name ≠ newFilename then
      (vaultCreate newFilename content (vaultDelete existingFile.name dir)).map
        (fun d => (.updated, d))
    else
      .ok (.updated, vaultModify existingFile.name content dir)
  | none =>
    (vaultCreate newFilename content dir).map (fun d => (.created, d))

lemma string_data_append (a b : String) : (a ++ b).data = a.data ++ b.data := rfl

lemma joinParts_append_single :
    ∀ (l : List String) (s : String), l ≠ [] →
      joinParts (l ++ [s]) = joinParts l ++ "_" ++ s := by
  intro l
  induction l with
  | nil => intro s h; exact absurd rfl h
  | cons a t ih =>
    intro s _
    cases t with
    | nil => rfl
    | cons b t' =>
      show a ++ "_" ++ joinParts ((b :: t') ++ [s])
          = (a ++ "_" ++ joinParts (b :: t')) ++ "_" ++ s
      rw [ih s (by simp)]
      simp [String.append_assoc]

lemma generateFilename_matches (htmlToMd : String → String) (memo : FlomoMemo)
    (h : 2 ≤ (filenameParts htmlToMd memo).length) :
    matchesSlugPat memo.slug (generateFilename htmlToMd memo) = true := by
  set pre := filenameDatePart memo ++
    (filenameTagPart memo ++ filenamePreviewPart htmlToMd memo) with hpre_def
  have hparts : filenameParts htmlToMd memo = pre ++ [memo.slug] := by
    simp [filenameParts, hpre_def]
  have hpre : pre ≠ [] := by
    intro h0
    rw [hparts, h0] at h
    simp at h
  have hjoin : joinParts (pre ++ [memo.slug])
      = joinParts pre ++ "_" ++ memo.slug :=
    joinParts_append_single pre _ hpre
  unfold matchesSlugPat generateFilename
  rw [hparts, hjoin]
  have hdata : (joinParts pre ++ "_" ++ memo.slug ++ ".md").data
      = (joinParts pre).data ++ ("_" ++ memo.slug ++ ".md").data := by
    simp only [string_data_append, List.append_assoc]
  rw [hdata]
  exact List.isSuffixOf_iff_suffix.mpr (List.suffix_append _ _)

/-- A degenerate record for the C7 counterexample: empty creation date, no
tags, empty content — its canonical filename is plain `M.md`, which the
`_<slug>.md` search pattern of `findFileBySlug` can never find. -/
def c7Memo : FlomoMemo :=
  { slug := "M", content := "", tags := [], created_at := ""
    updated_at := 0, source := "", files := [] }

/-- Counterexample to C7 as stated: reconciling the degenerate record twice
from an empty directory yields `created` and then *not* `skipped` — the
first run creates `M.md`, the second run cannot find it (its name does not
match `_M.md$`) and attempts a second create, which the vault rejects (the
record is then counted as `failed`). -/
theorem c7_counterexample :
    processMemo id (fun _ => none) c7Memo [] [] =
      .ok (.created,
        [{ name := "M.md",
           content := memoToMarkdown id (fun _ => none) c7Memo [] }]) ∧
    processMemo id (fun _ => none) c7Memo []
        [{ name := "M.md",
           content := memoToMarkdown id (fun _ => none) c7Memo [] }] =
      .error () := by
  refine ⟨rfl, rfl⟩

/-- C7 (amended): reconciliation is idempotent for every record whose
canonical filename embeds its id (at least one of the date / tag-leaf /
content-preview components is non-empty, i.e. the filename has a component
before the slug): from a directory with no file for the record's id, the
first run returns `created` and appends the canonical file, and a second run
with the same record, the same attachment-path mapping and the unchanged
directory returns `skipped` without modifying the directory. -/
theorem c7_reconcile_idempotent (htmlToMd : String → String)
    (urlPathname : String → Option String) (memo : FlomoMemo)
    (attachmentPaths : List (String × String)) (dir : List FileEntry)
    (_hslug : memo.slug ≠ "")
    (hparts : 2 ≤ (filenameParts htmlToMd memo).length)
    (hnone : findFileBySlug memo.slug dir = none) :
    processMemo htmlToMd urlPathname memo attachmentPaths dir =
      .ok (.created, dir ++
        [{ name := generateFilename htmlToMd memo
           content := memoToMarkdown htmlToMd urlPathname memo attachmentPaths }]) ∧
    processMemo htmlToMd urlPathname memo attachmentPaths
        (dir ++
          [{ name := generateFilename htmlToMd memo
             content := memoToMarkdown htmlToMd urlPathname memo attachmentPaths }]) =
      .ok (.skipped, dir ++
        [{ name := generateFilename htmlToMd memo
           content := memoToMarkdown htmlToMd urlPathname memo attachmentPaths }]) := by
  have hmatch := generateFilename_matches htmlToMd memo hparts
  have hnomatch : ∀ f ∈ dir, ¬ matchesSlugPat memo.slug f.name = true :=
    List.find?_eq_none.mp hnone
  have hany : dir.any (fun f => f.name == generateFilename htmlToMd memo) = false := by
    rw [List.any_eq_false]
    intro f hf
    simp only [beq_iff_eq]
    intro heq
    exact hnomatch f hf (heq ▸ hmatch)
  constructor
  · simp only [processMemo, hnone, vaultCreate, hany]
    rfl
  · have hfind : findFileBySlug memo.slug
        (dir ++
          [{ name := generateFilename htmlToMd memo
             content := memoToMarkdown htmlToMd urlPathname memo attachmentPaths }]) =
        some { name := generateFilename htmlToMd memo
               content := memoToMarkdown htmlToMd urlPathname memo attachmentPaths } := by
      unfold findFileBySlug
      rw [List.find?_append]
      unfold findFileBySlug at hnone
      rw [hnone]
      simp [List.find?_cons, hmatch]
    simp only [processMemo, hfind]
    simp

/-- A record for the C7 witness: one tag, so its filename `t_M2.md` embeds
the slug. -/
def c7WitnessMemo : FlomoMemo :=
  { slug := "M2", content := "", tags := ["t"], created_at := ""
    updated_at := 0, source := "", files := [] }

/-- Witness for `c7_reconcile_idempotent` at the concrete record
`c7WitnessMemo` and the empty directory. -/
theorem c7_reconcile_idempotent_witness :
    processMemo id (fun _ => none) c7WitnessMemo [] [] =
      .ok (.created, [] ++
        [{ name := generateFilename id c7WitnessMemo
           content := memoToMarkdown id (fun _ => none) c7WitnessMemo [] }]) ∧
    processMemo id (fun _ => none) c7WitnessMemo []
        ([] ++
          [{ name := generateFilename id c7WitnessMemo
             content := memoToMarkdown id (fun _ => none) c7WitnessMemo [] }]) =
      .ok (.skipped, [] ++
        [{ name := generateFilename id c7WitnessMemo
           content := memoToMarkdown id (fun _ => none) c7WitnessMemo [] }]) :=
  c7_reconcile_idempotent id (fun _ => none) c7WitnessMemo [] []
    (by decide) (by decide) rfl

/-- A degenerate record for the C8 counterexample (slug `N`, no date, no
tags, empty content). -/
def c8Memo : FlomoMemo :=
  { slug := "N", content := "", tags := [], created_at := ""
    updated_at := 0, source := "", files := [] }

/-- Counterexample to C8 as stated: the directory holds the single file
`x_N.md` bound to slug `N` (say from when the record carried tag `x`); the
record's canonical filename has changed to the degenerate `N.md`.
Reconciling deletes the old file and creates `N.md` — but afterwards *zero*
files (not exactly one) match the `_N.md$` binding pattern, so the
at-most-one-file invariant degenerates to an unbound record. -/
theorem c8_counterexample :
    processMemo id (fun _ => none) c8Memo []
        [FileEntry.mk "x_N.md" "old"] =
      .ok (.updated,
        [FileEntry.mk "N.md" (memoToMarkdown id (fun _ => none) c8Memo [])]) ∧
    List.filter (fun f => matchesSlugPat c8Memo.slug f.name)
        [FileEntry.mk "N.md" (memoToMarkdown id (fun _ => none) c8Memo [])]
      = [] := by
  refine ⟨rfl, rfl⟩

/-- C8 (amended): for every record whose canonical filename embeds its id
(a non-empty component precedes the slug) and whose canonical filename has
changed while the directory holds exactly one file bound to the id,
reconciliation deletes the old file and creates the new one: the outcome is
`updated`, afterwards exactly one file matches the id's binding pattern —
the freshly created canonical file — and no file carries the old name. -/
theorem c8_rename_preserves_unique_binding (htmlToMd : String → String)
    (urlPathname : String → Option String) (memo : FlomoMemo)
    (attachmentPaths : List (String × String)) (dir : List FileEntry)
    (old : FileEntry)
    (_hslug : memo.slug ≠ "")
    (hparts : 2 ≤ (filenameParts htmlToMd memo).length)
    (hfound : findFileBySlug memo.slug dir = some old)
    (hunique : ∀ f ∈ dir, matchesSlugPat memo.slug f.name = true → f = old)
    (hname : old.name ≠ generateFilename htmlToMd memo)
    (hcontent : old.content ≠
      memoToMarkdown htmlToMd urlPathname memo attachmentPaths) :
    processMemo htmlToMd urlPathname memo attachmentPaths dir =
      .ok (.updated, vaultDelete old.name dir ++
        [FileEntry.mk (generateFilename htmlToMd memo)
          (memoToMarkdown htmlToMd urlPathname memo attachmentPaths)]) ∧
    (vaultDelete old.name dir ++
        [FileEntry.mk (generateFilename htmlToMd memo)
          (memoToMarkdown htmlToMd urlPathname memo attachmentPaths)]).filter
      (fun f => matchesSlugPat memo.slug f.name) =
      [FileEntry.mk (generateFilename htmlToMd memo)
        (memoToMarkdown htmlToMd urlPathname memo attachmentPaths)] ∧
    (∀ f ∈ vaultDelete old.name dir ++
        [FileEntry.mk (generateFilename htmlToMd memo)
          (memoToMarkdown htmlToMd urlPathname memo attachmentPaths)],
      f.name ≠ old.name) := by
  have hmatch := generateFilename_matches htmlToMd memo hparts
  have hmemdel : ∀ f ∈ vaultDelete old.name dir, f ∈ dir ∧ f.name ≠ old.name := by
    intro f hf
    unfold vaultDelete at hf
    rw [List.mem_filter] at hf
    exact ⟨hf.1, by simpa using hf.2⟩
  have hnomatchdel : ∀ f ∈ vaultDelete old.name dir,
      ¬ matchesSlugPat memo.slug f.name = true := by
    intro f hf hm
    obtain ⟨hin, hne⟩ := hmemdel f hf
    exact hne (congrArg FileEntry.name (hunique f hin hm))
  have hany : (vaultDelete old.name dir).any
      (fun f => f.name == generateFilename htmlToMd memo) = false := by
    rw [List.any_eq_false]
    intro f hf
    simp only [beq_iff_eq]
    intro heq
    exact hnomatchdel f hf (heq ▸ hmatch)
  refine ⟨?_, ?_, ?_⟩
  · simp only [processMemo, hfound, if_neg hcontent, if_pos hname,
      vaultCreate, hany]
    rfl
  · rw [List.filter_append]
    rw [List.filter_eq_nil_iff.mpr hnomatchdel]
    simp [hmatch]
  · intro f hf
    rcases List.mem_append.1 hf with h | h
    · exact (hmemdel f h).2
    · simp at h
      subst h
      simp only []
      exact fun heq => hname heq.symm

/-- A directory entry and record for the C8 witness: the record (slug `M3`)
now carries tag `u`, while its existing file was created under tag `t`. -/
def c8WitnessMemo : FlomoMemo :=
  { slug := "M3", content := "", tags := ["u"], created_at := ""
    updated_at := 0, source := "", files := [] }

/-- Witness for `c8_rename_preserves_unique_binding`: renaming `t_M3.md` to
`u_M3.md` keeps exactly one bound file and drops the old name. -/
theorem c8_rename_preserves_unique_binding_witness :
    processMemo id (fun _ => none) c8WitnessMemo []
        [{ name := "t_M3.md", content := "old" }] =
      .ok (.updated,
        vaultDelete "t_M3.md" [{ name := "t_M3.md", content := "old" }] ++
          [{ name := generateFilename id c8WitnessMemo
             content := memoToMarkdown id (fun _ => none) c8WitnessMemo [] }]) := by
  have h := c8_rename_preserves_unique_binding id (fun _ => none) c8WitnessMemo
    [] [{ name := "t_M3.md", content := "old" }]
    { name := "t_M3.md", content := "old" }
    (by decide) (by decide) rfl
    (by intro f hf hm; simp at hf; simp [hf])
    (by decide) (by decide)
  exact h.1

/-- Models `SyncEngine.downloadAttachment` (`syncEngine.ts:435-506`) as observed by
its caller: the supported-format guard (`isImage`/`isAudio` over the
attachment name — defaulted to `"unnamed"` — and URL) returns `null`
immediately for unsupported formats; everything past the guard (extension
extraction, network download, EXIF parsing, dedup check, vault write) is
network/filesystem I/O abstracted as the oracle `io`, returning the local
path or `none` on failure. -/
def downloadAttachment (io : FlomoFile → Option String) (file : FlomoFile) :
    Option String :=
  let filename := jsOrStr file.name "unnamed"
  let isImg := isImage filename || isImage file.url
  let isAud := isAudio filename || isAudio file.url
  if !isImg && !isAud then none
  else io file

/-- Step 1 of `SyncEngine.processMemo` (`syncEngine.ts:339-355`): download
each attachment and record `url → localPath` for the successful ones; `null`
results leave the attachment unmapped.  (The 3-at-a-time batching of the
source preserves file order, so the mapping is modelled sequentially.) -/
def buildAttachmentPaths (io : FlomoFile → Option String)
    (files : List FlomoFile) : List (String × String) :=
  files.filterMap (fun f => (downloadAttachment io f).map (fun p => (f.url, p)))

/-- C10: an attachment whose name and URL both lack a recognized image and
audio extension is never downloaded — the download step returns `null` for
any behaviour of the enabled download path — so it stays unmapped in the
attachment-path mapping, and its rendered line therefore links to the remote
URL; conversely anything the download step accepts is an image or audio
attachment by name or URL. -/
theorem c10_non_media_attachments (io : FlomoFile → Option String)
    (urlPathname : String → Option String) (file : FlomoFile)
    (files : List FlomoFile)
    (h1 : isImage (jsOrStr file.name "unnamed") = false)
    (h2 : isImage file.url = false)
    (h3 : isAudio (jsOrStr file.name "unnamed") = false)
    (h4 : isAudio file.url = false)
    (hurl : file.url ≠ "")
    (huniq : ∀ g ∈ files, g.url = file.url → g = file) :
    downloadAttachment io file = none ∧
    lookupAssoc (buildAttachmentPaths io files) file.url = none ∧
    (∃ pre, formatAttachment urlPathname file
        (lookupAssoc (buildAttachmentPaths io files) file.url) =
      pre ++ "(" ++ file.url ++ ")") ∧
    (∀ g : FlomoFile, downloadAttachment io g ≠ none →
      (isImage (jsOrStr g.name "unnamed") || isImage g.url
        || isAudio (jsOrStr g.name "unnamed") || isAudio g.url) = true) := by
  have hdl : downloadAttachment io file = none := by
    simp [downloadAttachment, h1, h2, h3, h4]
  have hfind : (buildAttachmentPaths io files).find?
      (fun p => p.1 == file.url) = none := by
    rw [List.find?_eq_none]
    intro p hp
    unfold buildAttachmentPaths at hp
    rw [List.mem_filterMap] at hp
    obtain ⟨g, hg, hmap⟩ := hp
    rcases hdlg : downloadAttachment io g with _ | path
    · rw [hdlg] at hmap
      simp at hmap
    · rw [hdlg] at hmap
      simp at hmap
      subst hmap
      simp only [beq_iff_eq]
      intro hequrl
      have hgf := huniq g hg hequrl
      rw [hgf] at hdlg
      rw [hdl] at hdlg
      exact Option.noConfusion hdlg
  have hlookup : lookupAssoc (buildAttachmentPaths io files) file.url = none := by
    unfold lookupAssoc
    rw [hfind]
    rfl
  refine ⟨hdl, hlookup, ?_, ?_⟩
  · rw [hlookup]
    have hu : jsOrStr "" (jsOrStr file.url "") = file.url := by
      simp [jsOrStr, hurl]
    unfold formatAttachment
    by_cases hI : jsOrStr (getExtensionFromUrl urlPathname file.url)
        (getExtensionFromUrl urlPathname file.name) ∈ IMAGE_EXTS
    · exact ⟨"![" ++ jsOrStr file.name "file" ++ "]",
        by simp [hu, hurl, hI, String.append_assoc]⟩
    · by_cases hA : jsOrStr (getExtensionFromUrl urlPathname file.url)
          (getExtensionFromUrl urlPathname file.name) ∈ AUDIO_EXTS
      · exact ⟨"[音频: " ++ jsOrStr file.name "file" ++ "]",
          by simp [hu, hurl, hI, hA, String.append_assoc]⟩
      · exact ⟨"[" ++ jsOrStr file.name "file" ++ "]",
          by simp [hu, hurl, hI, hA, String.append_assoc]⟩
  · intro g hg
    by_cases hb1 : isImage (jsOrStr g.name "unnamed") = true <;>
      by_cases hb2 : isImage g.url = true <;>
      by_cases hb3 : isAudio (jsOrStr g.name "unnamed") = true <;>
      by_cases hb4 : isAudio g.url = true <;>
      simp_all [downloadAttachment]

/-- The attachment of the C10 witness: a PDF, neither image nor audio. -/
def c10File : FlomoFile :=
  { name := "doc.pdf", url := "https://x.com/doc.pdf" }

/-- Witness for `c10_non_media_attachments`: even with a download oracle
that would succeed, the PDF attachment is not downloaded and stays
unmapped. -/
theorem c10_non_media_attachments_witness :
    downloadAttachment (fun _ => some "local/doc.pdf") c10File = none ∧
    lookupAssoc
      (buildAttachmentPaths (fun _ => some "local/doc.pdf") [c10File])
      c10File.url = none :=
  ⟨(c10_non_media_attachments (fun _ => some "local/doc.pdf")
      (fun _ => some "/doc.pdf") c10File [c10File]
      (by decide) (by decide) (by decide) (by decide) (by decide)
      (by intro g hg _; simpa using hg)).1,
    (c10_non_media_attachments (fun _ => some "local/doc.pdf")
      (fun _ => some "/doc.pdf") c10File [c10File]
      (by decide) (by decide) (by decide) (by decide) (by decide)
      (by intro g hg _; simpa using hg)).2.1⟩

/-- The fixed shared secret `SIGN_SECRET` of `flomoClient.ts`. -/
def SIGN_SECRET : String := "dbbc3dd73364b4084c3a69346e0ce2b2"

/-- The `hexChars` alphabet of the `md5` routine (`flomoClient.ts:80`),
a string indexed by digit value in the source. -/
def hexCharsL : List Char := "0123456789abcdef".data

/-- Indexing into `hexChars`; the indices produced below are always `< 16`,
so the default is never reached. -/
def hexDigitChar (n : Nat) : Char := hexCharsL.getD n '0'

/-- Models `byteToHex` of the `md5` routine: two lowercase hex digits. -/
def byteToHex (b : Nat) : String :=
  String.mk [hexDigitChar ((b >>> 4) &&& 15), hexDigitChar (b &&& 15)]

/-- Models `toHex` of the `md5` routine: a 32-bit word rendered little-endian
(byte 0 first) as 8 lowercase hex digits. -/
def wordToHexLE (n : Nat) : String :=
  byteToHex (n &&& 0xff) ++ byteToHex ((n >>> 8) &&& 0xff)
    ++ byteToHex ((n >>> 16) &&& 0xff) ++ byteToHex ((n >>> 24) &&& 0xff)

/-- The per-round shift table `s` of the `md5` routine
(`flomoClient.ts:83-88`). -/
def md5sTable : List Nat :=
  [7, 12, 17, 22, 7, 12, 17, 22, 7, 12, 17, 22, 7, 12, 17, 22,
   5, 9, 14, 20, 5, 9, 14, 20, 5, 9, 14, 20, 5, 9, 14, 20,
   4, 11, 16, 23, 4, 11, 16, 23, 4, 11, 16, 23, 4, 11, 16, 23,
   6, 10, 15, 21, 6, 10, 15, 21, 6, 10, 15, 21, 6, 10, 15, 21]

/-- The additive-constant table `K` of the `md5` routine.  The source
computes `K[i] = Math.floor(Math.abs(Math.sin(i + 1)) * 4294967296)` in
IEEE-754 double arithmetic (`flomoClient.ts:90-93`); those 64 values are
exactly the RFC 1321 constants, hard-coded here because floating-point sine
is outside the embedding. -/
def md5KTable : List Nat :=
  [0xd76aa478, 0xe8c7b756, 0x242070db, 0xc1bdceee,
   0xf57c0faf, 0x4787c62a, 0xa8304613, 0xfd469501,
   0x698098d8, 0x8b44f7af, 0xffff5bb1, 0x895cd7be,
   0x6b901122, 0xfd987193, 0xa679438e, 0x49b40821,
   0xf61e2562, 0xc040b340, 0x265e5a51, 0xe9b6c7aa,
   0xd62f105d, 0x02441453, 0xd8a1e681, 0xe7d3fbc8,
   0x21e1cde6, 0xc33707d6, 0xf4d50d87, 0x455a14ed,
   0xa9e3e905, 0xfcefa3f8, 0x676f02d9, 0x8d2a4c8a,
   0xfffa3942, 0x8771f681, 0x6d9d6122, 0xfde5380c,
   0xa4beea44, 0x4bdecfa9, 0xf6bb4b60, 0xbebfbc70,
   0x289b7ec6, 0xeaa127fa, 0xd4ef3085, 0x04881d05,
   0xd9d4d039, 0xe6db99e5, 0x1fa27cf8, 0xc4ac5665,
   0xf4292244, 0x432aff97, 0xab9423a7, 0xfc93a039,
   0x655b59c3, 0x8f0ccc92, 0xffeff47d, 0x85845dd1,
   0x6fa87e4f, 0xfe2ce6e0, 0xa3014314, 0x4e0811a1,
   0xf7537e82, 0xbd3af235, 0x2ad7d2bb, 0xeb86d391]

/-- Models `leftRotate` of the `md5` routine, on 32-bit words embedded as `Nat`
reduced `% 2^32`. -/
def leftRotate (x c : Nat) : Nat :=
  ((x <<< c) ||| (x >>> (32 - c))) % 4294967296

/-- Models `input.charCodeAt(i) & 0xff` over the whole input
(`flomoClient.ts:101-104`); the signing inputs are ASCII, where the UTF-16
code unit equals the code point. -/
def strBytes (s : String) : List Nat := s.data.map (fun c => c.toNat % 256)

/-- The MD5 padding of `flomoClient.ts:106-122`: append `0x80`, zero-fill
until the length is ≡ 56 (mod 64) — the closed count `(119 - len % 64) % 64`
is what the `while` loop pushes — then the 64-bit original bit length,
little-endian, low word first. -/
def md5Pad (bytes : List Nat) : List Nat :=
  let originalLen := bytes.length * 8
  let zeros := (119 - bytes.length % 64) % 64
  bytes ++ [0x80] ++ List.replicate zeros 0
    ++ (List.range 4).map (fun i => ((originalLen % 4294967296) >>> (i * 8)) &&& 0xff)
    ++ (List.range 4).map (fun i => ((originalLen / 4294967296) >>> (i * 8)) &&& 0xff)

/-- The round function and message-word schedule of the `md5` routine
(`flomoClient.ts:141-155`): returns `(F, g)` for round `j`.  The JS bitwise
operators act on 32-bit values; `~x` is embedded as `x ^^^ 0xffffffff`. -/
def md5F (j B C D : Nat) : Nat × Nat :=
  if j < 16 then ((B &&& C) ||| ((B ^^^ 0xffffffff) &&& D), j)
  else if j < 32 then ((D &&& B) ||| ((D ^^^ 0xffffffff) &&& C), (5 * j + 1) % 16)
  else if j < 48 then (B ^^^ C ^^^ D, (3 * j + 5) % 16)
  else (C ^^^ (B ||| (D ^^^ 0xffffffff)), (7 * j) % 16)

/-- One round of the 64-round loop (`flomoClient.ts:157-162`). -/
def md5Round (M : Nat → Nat) (st : Nat × Nat × Nat × Nat) (j : Nat) :
    Nat × Nat × Nat × Nat :=
  let (A, B, C, D) := st
  let (F, g) := md5F j B C D
  let newB := (B + leftRotate ((A + F + md5KTable.getD j 0 + M g) % 4294967296)
    (md5sTable.getD j 0)) % 4294967296
  (D, newB, B, C)

/-- One 512-bit block (`flomoClient.ts:125-168`): build the 16 little-endian
message words and fold the 64 rounds, then add into the running state. -/
def md5Block (chunk : List Nat) (st : Nat × Nat × Nat × Nat) :
    Nat × Nat × Nat × Nat :=
  let M := fun j => (chunk.getD (j * 4) 0) ||| ((chunk.getD (j * 4 + 1) 0) <<< 8)
    ||| ((chunk.getD (j * 4 + 2) 0) <<< 16) ||| ((chunk.getD (j * 4 + 3) 0) <<< 24)
  let (a0, b0, c0, d0) := st
  let r := (List.range 64).foldl (md5Round M) st
  ((a0 + r.1) % 4294967296, (b0 + r.2.1) % 4294967296,
    (c0 + r.2.2.1) % 4294967296, (d0 + r.2.2.2) % 4294967296)

/-- The block loop over the padded bytes; the fuel (instantiated with the
byte count, far more than the block count) only bounds the structural
recursion and never runs out on padded input. -/
def md5Process : Nat → List Nat → (Nat × Nat × Nat × Nat) → Nat × Nat × Nat × Nat
  | 0, _, st => st
  | _ + 1, [], st => st
  | fuel + 1, bytes, st => md5Process fuel (bytes.drop 64) (md5Block (bytes.take 64) st)

/-- The four-word MD5 state after hashing the padded input, starting from
the standard initialization vector (`flomoClient.ts:95-98`). -/
def md5Digest (input : String) : Nat × Nat × Nat × Nat :=
  let bytes := md5Pad (strBytes input)
  md5Process bytes.length bytes (0x67452301, 0xefcdab89, 0x98badcfe, 0x10325476)

/-- Models `md5` (`flomoClient.ts:79-189`): the digest rendered as 32 lowercase hex
characters, each state word little-endian. -/
def md5 (input : String) : String :=
  let d := md5Digest input
  wordToHexLE d.1 ++ wordToHexLE d.2.1 ++ wordToHexLE d.2.2.1 ++ wordToHexLE d.2.2.2

/-- A scalar JS value occurring among request parameters. -/
inductive JScalar where
  | s (v : String)
  | n (v : Int)
  | b (v : Bool)
  | null
  deriving DecidableEq, Repr

/-- A JS request-parameter value: a scalar or an array of scalars (the
client never nests arrays in request parameters). -/
inductive JVal where
  | scalar (v : JScalar)
  | arr (l : List JScalar)
  deriving DecidableEq, Repr

/-- JS truthiness of a scalar. -/
def scalarTruthy : JScalar → Bool
  | .s v => v != ""
  | .n v => v != 0
  | .b bv => bv
  | .null => false

/-- JS `String(x)` of a scalar. -/
def scalarToString : JScalar → String
  | .s v => v
  | .n v => toString v
  | .b true => "true"
  | .b false => "false"
  | .null => "null"

/-- JS `String(x)` / template interpolation of a parameter value
(an array stringifies as its comma-joined elements). -/
def jvalToString : JVal → String
  | .scalar v => scalarToString v
  | .arr l => String.intercalate "," (l.map scalarToString)

/-- The UTF-16 code-unit comparison behind the default
`Array.prototype.sort()` comparator (for the BMP strings used in requests,
code points and code units coincide). -/
def charListLe : List Char → List Char → Bool
  | c1 :: r1, c2 :: r2 =>
    if c1 = c2 then charListLe r1 r2 else decide (c1.toNat < c2.toNat)
  | [], _ => true
  | _, _ => false

/-- Models `a <= b` on strings per the JS default sort comparison. -/
def jsStrLe (a b : String) : Bool := charListLe a.data b.data

/-- Ordered insert for `sortStrings`. -/
def insertSorted (x : String) : List String → List String
  | [] => [x]
  | y :: rest => if jsStrLe x y then x :: y :: rest else y :: insertSorted x rest

/-- Models `Array.prototype.sort()` with the default string comparator, as an
insertion sort (stable, hence extensionally the JS result). -/
def sortStrings (l : List String) : List String := l.foldr insertSorted []

/-- Models `params[key]` on the parameter object (object keys are unique; the
first binding wins). -/
def lookupJVal (params : List (String × JVal)) (k : String) : Option JVal :=
  (params.find? (fun p => p.1 == k)).map (·.2)

/-- The `key=value` / `key[]=value` parts contributed by one key of
`generateSign` (`flomoClient.ts:41-58`): `null`/`undefined`/`""` values are
skipped (`false` and `0` are kept); an array keeps its truthy-or-zero
elements, stringified and sorted, as repeated `key[]=` entries; any other
value becomes a single `key=value` entry. -/
def partsForKey (params : List (String × JVal)) (key : String) : List String :=
  match lookupJVal params key with
  | none => []
  | some value =>
    if value = .scalar .null ∨ value = .scalar (.s "") then []
    else
      match value with
      | .arr l =>
        (sortStrings ((l.filter (fun x => scalarTruthy x || x == JScalar.n 0)).map
          scalarToString)).map (fun item => key ++ "[]=" ++ item)
      | v => [key ++ "=" ++ jvalToString v]

/-- The query string hashed by `generateSign`: parts for every key in
lexicographic order, joined by `&`. -/
def signQueryString (params : List (String × JVal)) : String :=
  String.intercalate "&"
    (((sortStrings (params.map Prod.fst)).map (partsForKey params)).flatten)

/-- Models `generateSign` (`flomoClient.ts:36-64`): the MD5 of the sorted query
string with the shared secret appended. -/
def generateSign (params : List (String × JVal)) : String :=
  md5 (signQueryString params ++ SIGN_SECRET)

/-- Stated per C9's words, for the counterexample: "dropping every falsy
value except numeric zero" — so a scalar is kept only when truthy or the
number `0` (boolean `false` is dropped); arrays as in the code. -/
def claimFieldEntries (key : String) : JVal → List String
  | .arr l =>
    (sortStrings ((l.filter (fun x => scalarTruthy x || x == JScalar.n 0)).map
      scalarToString)).map (fun item => key ++ "[]=" ++ item)
  | .scalar v =>
    if scalarTruthy v || v == JScalar.n 0 then [key ++ "=" ++ scalarToString v]
    else []

/-- The query string of the claim's construction (C9 as stated). -/
def claimQueryString (params : List (String × JVal)) : String :=
  String.intercalate "&"
    (((sortStrings (params.map Prod.fst)).map (fun key =>
      match lookupJVal params key with
      | none => []
      | some v => claimFieldEntries key v)).flatten)

/-- The signature of the claim's construction (C9 as stated). -/
def claimSign (params : List (String × JVal)) : String :=
  md5 (claimQueryString params ++ SIGN_SECRET)

/-- Per-field entries following the amended wording: `null`/`undefined`/
empty-string values are dropped; boolean `false` and numeric zero are kept;
array elements are dropped when falsy other than numeric zero, stringified,
sorted, and expanded as repeated `key[]=value` entries. -/
def amendedFieldEntries (key : String) : JVal → List String
  | .scalar .null => []
  | .scalar (.s v) => if v = "" then [] else [key ++ "=" ++ v]
  | .scalar (.n i) => [key ++ "=" ++ toString i]
  | .scalar (.b bv) => [key ++ "=" ++ if bv then "true" else "false"]
  | .arr l =>
    (sortStrings ((l.filter (fun x => scalarTruthy x || x == JScalar.n 0)).map
      scalarToString)).map (fun item => key ++ "[]=" ++ item)

/-- The query string of the amended description. -/
def amendedQueryString (params : List (String × JVal)) : String :=
  String.intercalate "&"
    (((sortStrings (params.map Prod.fst)).map (fun key =>
      match lookupJVal params key with
      | none => []
      | some v => amendedFieldEntries key v)).flatten)

lemma partsForKey_eq_amended (params : List (String × JVal)) (key : String) :
    partsForKey params key =
      match lookupJVal params key with
      | none => []
      | some v => amendedFieldEntries key v := by
  unfold partsForKey
  cases lookupJVal params key with
  | none => rfl
  | some v =>
    cases v with
    | arr l => simp [amendedFieldEntries]
    | scalar sc =>
      cases sc with
      | s v' =>
        by_cases hv : v' = ""
        · subst hv; simp [amendedFieldEntries]
        · simp [amendedFieldEntries, hv, jvalToString, scalarToString]
      | n i => simp [amendedFieldEntries, jvalToString, scalarToString]
      | b bv => cases bv <;> simp [amendedFieldEntries, jvalToString, scalarToString]
      | null => simp [amendedFieldEntries]

lemma byteToHex_length (b : Nat) : (byteToHex b).length = 2 := rfl

lemma md5_length (s : String) : (md5 s).length = 32 := rfl

lemma hexDigitChar_mem (n : Nat) : hexDigitChar n ∈ hexCharsL := by
  unfold hexDigitChar
  rcases Nat.lt_or_ge n 16 with h | h
  · interval_cases n <;> decide
  · rw [List.getD_eq_default]
    · decide
    · simpa [hexCharsL] using h

lemma mem_wordToHexLE (n : Nat) : ∀ c ∈ (wordToHexLE n).data, c ∈ hexCharsL := by
  intro c hc
  unfold wordToHexLE byteToHex at hc
  simp only [string_data_append, List.mem_append] at hc
  rcases hc with ((h | h) | h) | h <;>
    · simp at h
      rcases h with h | h <;> exact h ▸ hexDigitChar_mem _

/-- Counterexample to C9 as stated: a parameter object holding the single
field `a: false`.  The code keeps the scalar `false` (it skips only
`null`/`undefined`/`""`), hashing `"a=false" + secret`; the claim's
construction drops it as a falsy non-zero value, hashing `"" + secret`.
The two signatures differ. -/
theorem c9_counterexample :
    generateSign [("a", JVal.scalar (JScalar.b false))] ≠
      claimSign [("a", JVal.scalar (JScalar.b false))] ∧
    generateSign [("a", JVal.scalar (JScalar.b false))] =
      md5 ("a=false" ++ SIGN_SECRET) ∧
    claimSign [("a", JVal.scalar (JScalar.b false))] =
      md5 ("" ++ SIGN_SECRET) := by
  refine ⟨by decide, rfl, rfl⟩

/-- C9 (amended): the request signature sorts the fields in lexicographic
key order, drops `null`/`undefined`/empty-string values (keeping boolean
`false` and numeric zero as scalars; within array-valued fields, falsy
elements other than numeric zero are dropped), expands arrays into repeated
sorted `key[]=value` entries, joins the surviving entries with `&`, appends
the fixed shared secret, and takes the MD5 of the result — which is always
exactly 32 lowercase hexadecimal characters. -/
theorem c9_signature_algorithm (params : List (String × JVal)) :
    generateSign params = md5 (amendedQueryString params ++ SIGN_SECRET) ∧
    (∀ s : String, (md5 s).length = 32 ∧ ∀ c ∈ (md5 s).data, c ∈ hexCharsL) := by
  constructor
  · have h : signQueryString params = amendedQueryString params := by
      unfold signQueryString amendedQueryString
      congr 1
      congr 1
      apply List.map_congr_left
      intro key _
      exact partsForKey_eq_amended params key
    unfold generateSign
    rw [h]
  · intro s
    refine ⟨md5_length s, ?_⟩
    intro c hc
    unfold md5 at hc
    simp only [string_data_append, List.mem_append] at hc
    rcases hc with ((h | h) | h) | h <;> exact mem_wordToHexLE _ c h

/-- Witness for `c9_signature_algorithm` at a concrete parameter object
(a page-size number, an empty resume id and a boolean flag): the code
signature agrees with the amended construction, and the digest of a sample
string has length 32. -/
theorem c9_signature_algorithm_witness :
    generateSign
        [("limit", JVal.scalar (JScalar.n 200)),
          ("latest_slug", JVal.scalar (JScalar.s "")),
          ("webp", JVal.scalar (JScalar.b false))] =
      md5 (amendedQueryString
        [("limit", JVal.scalar (JScalar.n 200)),
          ("latest_slug", JVal.scalar (JScalar.s "")),
          ("webp", JVal.scalar (JScalar.b false))] ++ SIGN_SECRET) ∧
    (md5 "limit=200").length = 32 :=
  ⟨(c9_signature_algorithm
      [("limit", JVal.scalar (JScalar.n 200)),
        ("latest_slug", JVal.scalar (JScalar.s "")),
        ("webp", JVal.scalar (JScalar.b false))]).1,
    ((c9_signature_algorithm []).2 "limit=200").1⟩

end Flomo2Obsidian
